/-
Verification of the CascadingTrust trust-tree authorization engine.

The repository is a Next.js frontend plus a FastAPI backend; only the
frontend sources are available here.  Pure frontend logic (the API-call
wrapper, the password-entry masking logic, the submit flow, the
redirect construction, the graph node renderings) is embedded directly
from the TypeScript sources.  Backend components that are only called
from the frontend (revocation cascade, usage accountant, ancestry
resolver, credential verification, node PATCH) are modelled from the
specification, with a doc comment marking each such definition.

Machine times are modelled as natural numbers (milliseconds since
epoch); strings are Lean strings, with JavaScript string truthiness
rendered as the test against the empty string.
-/
import Mathlib

set_option linter.unusedVariables false

/-! ## Data model (from services/api.service.ts interface Node and TODO.md schema) -/

/-- Node kinds, from the node_type column: site, password or invite. -/
inductive NodeType
  | site
  | password
  | invite
deriving DecidableEq, Repr

/-- A row of the nodes table, after the interface Node in
services/external-api.service.ts (timestamps as natural numbers). -/
structure DbNode where
  id : Nat
  node_type : NodeType
  value : String
  redirect_url : Option String
  parent_id : Option Nat
  uses : Nat
  max_uses : Option Nat
  is_active : Bool
  expires_at : Option Nat
deriving DecidableEq, Repr

/-- Point lookup by id in the node store. -/
def lookup (store : List DbNode) (i : Nat) : Option DbNode :=
  store.find? (fun n => n.id = i)

/-! ## C7: the API-call layer (services/external-api.service.ts, callExternalApi) -/

/-- The parts of an axios error response consulted by callExternalApi:
response.statusText (a string, possibly empty) and response.data.message
(possibly absent). -/
structure ErrResponse where
  statusText : String
  dataMessage : Option String
deriving DecidableEq, Repr

/-- Outcome of the awaited axios call inside callExternalApi: a successful
response with data, an axios error (with optional response and a message
string), or any other thrown value (read through its message field). -/
inductive AxiosOutcome (T : Type)
  | success (data : T)
  | axiosError (response : Option ErrResponse) (message : String)
  | otherError (message : String)

/-- The error half of the ApiResponse shape. -/
structure ApiError where
  message : String
deriving DecidableEq, Repr

/-- The ApiResponse shape returned by callExternalApi. -/
structure ApiResponse (T : Type) where
  data : Option T
  error : Option ApiError

/-- Message selection in the axios-error branch of callExternalApi:
starts from "http request failed", then statusText, then the axios
message, then response.data.message, each overwriting only when truthy. -/
def axiosErrorMessage (response : Option ErrResponse) (message : String) : String :=
  let m0 := "http request failed"
  let m1 :=
    match response with
    | some r => if r.statusText ≠ "" then r.statusText else m0
    | none => m0
  let m2 := if message ≠ "" then message else m1
  match response with
  | some r =>
    match r.dataMessage with
    | some dm => if dm ≠ "" then dm else m2
    | none => m2
  | none => m2

/-- callExternalApi from services/external-api.service.ts: the try block
returns the data with a null error; both catch branches return null data
with an error message, so no fault escapes to the caller. -/
def callExternalApi {T : Type} : AxiosOutcome T → ApiResponse T
  | .success d => { data := some d, error := none }
  | .axiosError response message =>
      { data := none, error := some { message := axiosErrorMessage response message } }
  | .otherError message =>
      { data := none, error := some { message := message } }

/-! ## C9: password-entry masking (src/app/page.tsx, handleChange) -/

/-- Border/validation marker of the entry field. -/
inductive VState
  | error
  | success
deriving DecidableEq, Repr

/-- The React state touched by handleChange, with character lists for the
two string states so that the JavaScript slice arithmetic is explicit. -/
structure EntryState where
  password : List Char
  displayValue : List Char
  shouldResetOnNextInput : Bool
  validationState : Option VState
deriving DecidableEq, Repr

/-- handleChange from src/app/page.tsx (identical in the invite-page
variant): on the reset-on-next-input path a shrink clears everything and
otherwise only the last typed character is kept; on the normal path
appended characters are taken from the tail of the event value and a
shrink truncates the stored password; the display is always rewritten as
asterisks of the event value's length, and validationState is cleared. -/
def handleChange (s : EntryState) (newDisplayValue : List Char) : EntryState :=
  let oldLength := s.displayValue.length
  let newLength := newDisplayValue.length
  if s.shouldResetOnNextInput then
    if newLength < oldLength then
      { s with shouldResetOnNextInput := false, password := [], displayValue := [],
               validationState := none }
    else
      let newChar := newDisplayValue.drop (newDisplayValue.length - 1)
      { s with shouldResetOnNextInput := false, password := newChar,
               displayValue := List.replicate newChar.length '*',
               validationState := none }
  else
    let newPassword :=
      if newLength > oldLength then s.password ++ newDisplayValue.drop oldLength
      else if newLength < oldLength then s.password.take newLength
      else s.password
    { s with password := newPassword,
             displayValue := List.replicate newLength '*',
             validationState := none }

/-- The masking invariant: the rendered input value is exactly one
asterisk per stored password character. -/
def Masked (s : EntryState) : Prop :=
  s.displayValue = List.replicate s.password.length '*'

instance (s : EntryState) : Decidable (Masked s) := by
  unfold Masked
  infer_instance

/-! ## C10: redirect construction (continueToSite in src/app/invite/[code]/page.tsx) -/

/-- A parsed URL at the granularity the code uses: the part before the
fragment and the fragment (with its leading hash sign, as in the WHATWG
hash property).  Normalisation of an already well-formed absolute URL is
taken as the identity. -/
structure JsUrl where
  base : List Char
  hash : List Char
deriving DecidableEq, Repr

/-- The literal token= prefix written into the fragment. -/
def tokenKey : List Char :=
  ['t', 'o', 'k', 'e', 'n', '=']

/-- Split a character list at the first hash sign, keeping the hash sign
with the fragment. -/
def splitAtHash : List Char → List Char × List Char
  | [] => ([], [])
  | c :: rest =>
      if c = '#' then ([], c :: rest)
      else
        let p := splitAtHash rest
        (c :: p.1, p.2)

/-- The URL constructor at fragment granularity. -/
def parseUrl (s : List Char) : JsUrl :=
  { base := (splitAtHash s).1, hash := (splitAtHash s).2 }

/-- Assignment to the hash property: the setter prefixes the hash sign. -/
def setHash (u : JsUrl) (h : List Char) : JsUrl :=
  { u with hash := '#' :: h }

/-- Serialisation of the URL object. -/
def urlToString (u : JsUrl) : List Char :=
  u.base ++ u.hash

/-- continueToSite from src/app/invite/[code]/page.tsx (same code in the
gateway page's success branch): when a redirect URL is present, parse it,
set the fragment to token= followed by the token whenever the token is
truthy, and navigate to the serialised result; with no redirect URL
nothing happens. -/
def continueToSite (redirectUrl : List Char) (token : Option (List Char)) :
    Option (List Char) :=
  if redirectUrl = [] then none
  else
    let u := parseUrl redirectUrl
    let u2 :=
      match token with
      | some t => if t = [] then u else setHash u (tokenKey ++ t)
      | none => u
    some (urlToString u2)

/-! ## C8: submit-flow rejection uniformity (handleSubmit in src/app/page.tsx) -/

/-- Outcome of the awaited password validation inside handleSubmit: a
response carrying a redirect URL and an optional token, an API-level
error (with its message), a response without data, or a thrown
exception. -/
inductive ValidationOutcome
  | success (redirectUrl : List Char) (token : Option (List Char))
  | rejectedApiError (message : String)
  | rejectedNoData
  | thrown (message : String)
deriving DecidableEq

/-- Rejection predicate: every outcome that does not carry a truthy
redirect URL takes the error path of handleSubmit. -/
def isRejection : ValidationOutcome → Bool
  | .success redirectUrl _ => redirectUrl = []
  | .rejectedApiError _ => true
  | .rejectedNoData => true
  | .thrown _ => true

/-- The error path of handleSubmit: mark the field to reset on the next
input and show the error border; password and display value are left in
place. -/
def rejectionUiUpdate (s : EntryState) : EntryState :=
  { s with shouldResetOnNextInput := true, validationState := some VState.error }

/-- The observable result of a submit: either a navigation to a URL or
the error rendering of the entry state. -/
inductive SubmitResult
  | redirect (target : List Char)
  | errorShown (s : EntryState)
deriving DecidableEq

/-- handleSubmit from src/app/page.tsx, as a function of the validation
outcome: a valid result with a truthy redirect URL navigates (with the
token placed in the fragment); the else branch, the no-data case and the
catch branch run the identical error sequence. -/
def handleSubmit (s : EntryState) : ValidationOutcome → SubmitResult
  | .success redirectUrl token =>
      if redirectUrl = [] then SubmitResult.errorShown (rejectionUiUpdate s)
      else
        match continueToSite redirectUrl token with
        | some target => SubmitResult.redirect target
        | none => SubmitResult.errorShown (rejectionUiUpdate s)
  | .rejectedApiError _ => SubmitResult.errorShown (rejectionUiUpdate s)
  | .rejectedNoData => SubmitResult.errorShown (rejectionUiUpdate s)
  | .thrown _ => SubmitResult.errorShown (rejectionUiUpdate s)

/-! ## C5: lazy expiry in the graph renderings (admin/graph node components) -/

/-- The rendering-relevant props passed to the graph node components. -/
structure RenderData where
  isActive : Bool
  expiresAt : Option Nat
deriving DecidableEq, Repr

/-- The lazy expiry test: a time stamp is present and strictly before the
current instant. -/
def timeExpired (now : Nat) (e : Option Nat) : Bool :=
  match e with
  | some t => t < now
  | none => false

/-- The isExpired test of InviteNode.tsx: the expiry is truthy and the
parsed date is strictly before the current date. -/
def inviteIsExpired (now : Nat) (d : RenderData) : Bool :=
  timeExpired now d.expiresAt

/-- effectiveActive of InviteNode.tsx: active and not expired; this value
drives every visual cue (dashed border, overlay, exp badge,
strikethrough). -/
def inviteEffectiveActive (now : Nat) (d : RenderData) : Bool :=
  d.isActive && ! inviteIsExpired now d

/-- The active test of PasswordNode.tsx: the component destructures the
expiry but all styling (border, overlay, off badge, strikethrough) is
conditioned on isActive alone. -/
def passwordRenderedActive (now : Nat) (d : RenderData) : Bool :=
  d.isActive

/-- The active test of SiteNode.tsx: styling and the inactive label are
conditioned on isActive alone. -/
def siteRenderedActive (now : Nat) (d : RenderData) : Bool :=
  d.isActive

/-! ## C2: usage accounting (spec-modelled Usage Accountant) -/

/-- Result kinds of the Usage Accountant. -/
inductive ConsumeResult
  | granted
  | exhausted
  | expired
  | inactive
deriving DecidableEq, Repr

/-- Modelled from the spec: the backend Usage Accountant (tryConsume) is
not under src; per section 4.2, expiry and active-flag checks occur
before the increment and do not mutate state, and the check-and-increment
against max_uses is one atomic step that increments uses only when below
the ceiling (a null ceiling is unlimited). -/
def tryConsume (now : Nat) (c : DbNode) : ConsumeResult × DbNode :=
  if c.is_active = false then (ConsumeResult.inactive, c)
  else if timeExpired now c.expires_at then (ConsumeResult.expired, c)
  else
    match c.max_uses with
    | none => (ConsumeResult.granted, { c with uses := c.uses + 1 })
    | some m =>
        if c.uses < m then (ConsumeResult.granted, { c with uses := c.uses + 1 })
        else (ConsumeResult.exhausted, c)

/-- Modelled from the spec: a schedule of validation attempts against one
node.  Because each tryConsume is a single atomic step (section 5), any
concurrent schedule is observationally a sequence of attempt times; the
run returns the final node and the number of granted attempts. -/
def runAttempts : DbNode → List Nat → DbNode × Nat
  | c, [] => (c, 0)
  | c, now :: rest =>
      let step := tryConsume now c
      let tail := runAttempts step.2 rest
      (tail.1, (if step.1 = ConsumeResult.granted then 1 else 0) + tail.2)

/-! ## C3: credential issuance and verification (spec-modelled Credential Service) -/

/-- Claims carried by an issued token, per section 4.5 of the spec. -/
structure TokenClaims where
  nodeId : Nat
  siteId : Nat
  issuedAt : Nat
  expiresAt : Nat
deriving DecidableEq, Repr

/-- Modelled from the spec: the backend signing primitive is not under
src; a signature is modelled as the keyed image of the claims, so that a
signature matches exactly when recomputing it over the carried claims
with the same key gives the same value. -/
def signClaims (key : Nat) (c : TokenClaims) : Nat × TokenClaims :=
  (key, c)

/-- A signed token: claims plus signature. -/
structure SignedToken where
  claims : TokenClaims
  sig : Nat × TokenClaims
deriving DecidableEq, Repr

/-- Verification result, per section 4.5. -/
inductive VerifyResult
  | ok (nodeId : Nat) (siteId : Nat)
  | invalid
deriving DecidableEq, Repr

/-- Modelled from the spec: the backend issue(node, siteId) of the
Credential Service is not under src; it signs the claims with expiry at
issuance time plus the configured TTL. -/
def issue (key : Nat) (now : Nat) (ttl : Nat) (nodeId : Nat) (siteId : Nat) : SignedToken :=
  let c : TokenClaims :=
    { nodeId := nodeId, siteId := siteId, issuedAt := now, expiresAt := now + ttl }
  { claims := c, sig := signClaims key c }

/-- Modelled from the spec: the backend verify(token, expectedSiteId?) of
the Credential Service is not under src; it checks signature integrity,
then expiry, then — when an expected site id is supplied — that the
token's site id matches, rejecting a token issued for a different site. -/
def verify (key : Nat) (now : Nat) (tok : SignedToken) (expectedSiteId : Option Nat) :
    VerifyResult :=
  if tok.sig ≠ signClaims key tok.claims then VerifyResult.invalid
  else if tok.claims.expiresAt < now then VerifyResult.invalid
  else
    match expectedSiteId with
    | some s =>
        if tok.claims.siteId = s then VerifyResult.ok tok.claims.nodeId tok.claims.siteId
        else VerifyResult.invalid
    | none => VerifyResult.ok tok.claims.nodeId tok.claims.siteId

/-! ## C1: revocation cascade (spec-modelled Revocation Cascade) -/

/-- Ancestor test by walking parent links upward with bounded fuel:
hasAncestor store fuel b a holds when following parent_id links from the
node with id b reaches id a within fuel steps (so b lies in the subtree
rooted at a). -/
def hasAncestor (store : List DbNode) : Nat → Nat → Nat → Bool
  | 0, b, a => b = a
  | fuel + 1, b, a =>
      if b = a then true
      else
        match lookup store b with
        | none => false
        | some n =>
            match n.parent_id with
            | none => false
            | some p => hasAncestor store fuel p a

/-- Modelled from the spec: the backend revoke handler behind
POST /api/admin/nodes/(id)/revoke is not under src; per section 4.4 it
sets is_active to false on the target node and on every transitive
descendant (transitive closure of the child relation), in one bulk
deactivation, and touches no other node. -/
def revoke (store : List DbNode) (target : Nat) : List DbNode :=
  store.map (fun n =>
    if hasAncestor store store.length n.id target then { n with is_active := false } else n)

/-- Reachability along child links: Reaches store a b holds when node id b
is id a itself or the child (by parent_id) of a node already reached. -/
inductive Reaches (store : List DbNode) : Nat → Nat → Prop
  | refl (a : Nat) : Reaches store a a
  | child (a b c : Nat) (n : DbNode) (hmem : n ∈ store) (hid : n.id = c)
      (hpar : n.parent_id = some b) (hr : Reaches store a b) : Reaches store a c

/-! ## C4: re-enable a node (admin/graph/page.tsx handleEnable plus spec-modelled PATCH) -/

/-- The UpdateNodeRequest shape of services/api.service.ts: each field is
present or absent. -/
structure UpdatePatch where
  redirect_url : Option String := none
  parent_id : Option (Option Nat) := none
  max_uses : Option (Option Nat) := none
  is_active : Option Bool := none
  expires_at : Option (Option Nat) := none
deriving DecidableEq, Repr

/-- Application of a PATCH body to one row: absent fields leave the row's
value in place. -/
def applyPatch (p : UpdatePatch) (n : DbNode) : DbNode :=
  { n with
    redirect_url := match p.redirect_url with | some r => some r | none => n.redirect_url
    parent_id := p.parent_id.getD n.parent_id
    max_uses := p.max_uses.getD n.max_uses
    is_active := p.is_active.getD n.is_active
    expires_at := p.expires_at.getD n.expires_at }

/-- Modelled from the spec: the backend handler behind
PATCH /api/admin/nodes/(id) is not under src; it applies the request
body to the single addressed node and to no other. -/
def updateNodeStore (store : List DbNode) (nodeId : Nat) (p : UpdatePatch) : List DbNode :=
  store.map (fun n => if n.id = nodeId then applyPatch p n else n)

/-- handleEnable from src/app/admin/graph/page.tsx: it sends a PATCH for
the selected node whose body carries only is_active set to true. -/
def handleEnable (store : List DbNode) (nodeId : Nat) : List DbNode :=
  updateNodeStore store nodeId { is_active := some true }

/-! ## C6: ancestry resolution (spec-modelled Ancestry Resolver) -/

/-- The configured hard ceiling on parent-chain length (section 4.3). -/
def maxAncestryDepth : Nat := 64

/-- Effective usability of one row at a time instant: active, and not
past its expiry. -/
def nodeUsable (now : Nat) (n : DbNode) : Bool :=
  n.is_active && ! timeExpired now n.expires_at

/-- Successful resolution: the root site id, the visited path (node
first, root last) and whether every visited node is live. -/
structure ResolveOk where
  siteId : Nat
  path : List DbNode
  allActive : Bool
deriving DecidableEq, Repr

/-- Modelled from the spec: the worker loop of the backend Ancestry
Resolver is not under src; it walks parent_id links collecting visited
nodes, stops at the root (no parent), and a missing parent row or an
exhausted fuel budget is the MalformedTree outcome (none). -/
def resolveAux (store : List DbNode) (now : Nat) :
    Nat → DbNode → List DbNode → Option ResolveOk
  | 0, _, _ => none
  | fuel + 1, n, acc =>
      match n.parent_id with
      | none =>
          some { siteId := n.id, path := acc ++ [n],
                 allActive := (acc ++ [n]).all (nodeUsable now) }
      | some p =>
          match lookup store p with
          | none => none
          | some pn => resolveAux store now fuel pn (acc ++ [n])

/-- Modelled from the spec: resolve(node) of section 4.3, with the
configured depth ceiling as the fuel budget. -/
def resolve (store : List DbNode) (now : Nat) (n : DbNode) : Option ResolveOk :=
  resolveAux store now maxAncestryDepth n []

/-- Depth of a node through resolvable parent links: ChainDepth store n d
holds when following parent_id links from n (each found in the store)
reaches a root in exactly d steps. -/
inductive ChainDepth (store : List DbNode) : DbNode → Nat → Prop
  | root (n : DbNode) (h : n.parent_id = none) : ChainDepth store n 0
  | step (n : DbNode) (pid : Nat) (pn : DbNode) (d : Nat)
      (hp : n.parent_id = some pid) (hl : lookup store pid = some pn)
      (hd : ChainDepth store pn d) : ChainDepth store n (d + 1)

/-- A trapped set for a store: a collection of store rows each of whose
parent links resolves in the store to another member of the collection.
The nodes of any parent cycle that slipped past creation-time validation
form such a set — also when the surrounding store contains well-formed
rooted trees — and a walk started inside it can never reach a root. -/
def trappedSet (store : List DbNode) (C : List DbNode) : Bool :=
  C.all (fun m =>
    decide (m ∈ store) &&
    match m.parent_id with
    | none => false
    | some pid =>
        match lookup store pid with
        | none => false
        | some pn => decide (pn ∈ C))

/-- Executable depth measurement along parent links, used to certify
ChainDepth facts on concrete stores: it returns the distance to the root
when the walk reaches one within the fuel budget. -/
def chainDepthB (store : List DbNode) : Nat → DbNode → Option Nat
  | 0, _ => none
  | fuel + 1, n =>
      match n.parent_id with
      | none => some 0
      | some pid =>
          match lookup store pid with
          | none => none
          | some pn =>
              match chainDepthB store fuel pn with
              | none => none
              | some d => some (d + 1)

/-- Consistency of a depth labelling with the parent links: every child
sits one level below its parent. -/
def parentDepthConsistent (store : List DbNode) (d : Nat → Nat) : Bool :=
  store.all (fun n =>
    match n.parent_id with
    | some p => d n.id == d p + 1
    | none => true)

/-- The depth labelling stays within the store size above the target's
level, so parent chains inside the store fit in the fuel budget. -/
def depthBounded (store : List DbNode) (d : Nat → Nat) (target : Nat) : Bool :=
  store.all (fun n => decide (d n.id ≤ store.length + d target))

/-! ## Concrete fixtures used by the witnesses -/

/-- Fixture: a root site node. -/
def wSite : DbNode :=
  ⟨1, NodeType.site, "mysite", some "https://dest.example", none, 0, none, true, none⟩

/-- Fixture: a password under the site. -/
def wPwd : DbNode :=
  ⟨2, NodeType.password, "hunter2", none, some 1, 0, none, true, none⟩

/-- Fixture: an invite under the password. -/
def wInv : DbNode :=
  ⟨3, NodeType.invite, "inv-abc", none, some 2, 0, none, true, none⟩

/-- Fixture: a sibling password under the site. -/
def wPwd2 : DbNode :=
  ⟨4, NodeType.password, "other", none, some 1, 0, none, true, none⟩

/-- Fixture: a well-formed two-tree-free store (one site, two branches). -/
def wStore : List DbNode :=
  [wSite, wPwd, wInv, wPwd2]

/-- Fixture: depth labelling of wStore. -/
def wDepth : Nat → Nat :=
  fun i => if i = 2 then 1 else if i = 3 then 2 else if i = 4 then 1 else 0

/-- Fixture: one half of a two-node parent cycle. -/
def cNodeA : DbNode :=
  ⟨10, NodeType.invite, "cyc-a", none, some 11, 0, none, true, none⟩

/-- Fixture: the other half of the two-node parent cycle. -/
def cNodeB : DbNode :=
  ⟨11, NodeType.invite, "cyc-b", none, some 10, 0, none, true, none⟩

/-- Fixture: a store holding a well-formed rooted tree next to the
embedded two-node parent cycle. -/
def mixStore : List DbNode :=
  [wSite, wPwd, cNodeA, cNodeB]

/-- Fixture: the i-th node of a long straight chain; node 64 is the root
and every other node's parent is the next node up. -/
def chainNode (i : Nat) : DbNode :=
  ⟨100 + i, NodeType.invite, "chain", none,
    if i = 64 then none else some (100 + i + 1), 0, none, true, none⟩

/-- Fixture: a 65-node chain, one node longer than the configured depth
ceiling. -/
def longStore : List DbNode :=
  (List.range 65).map chainNode

/-- Fixture: a revoked password whose child invite is also revoked. -/
def eNodeA : DbNode :=
  ⟨1, NodeType.password, "p", none, none, 0, none, false, none⟩

/-- Fixture: the revoked child invite of eNodeA. -/
def eNodeB : DbNode :=
  ⟨2, NodeType.invite, "i", none, some 1, 0, none, false, none⟩

/-- Fixture: a node with a use ceiling of two. -/
def uNode : DbNode :=
  ⟨7, NodeType.password, "lim", none, some 1, 0, some 2, true, none⟩

/-! ## Helper lemmas -/

/-- A hash-free character list splits into itself and an empty fragment. -/
theorem splitAtHash_of_not_mem (l : List Char) (h : '#' ∉ l) : splitAtHash l = (l, []) := by
  induction l with
  | nil => rfl
  | cons c rest ih =>
      have hc : ¬ c = '#' := fun hc => h (hc ▸ List.mem_cons_self c rest)
      have hr : '#' ∉ rest := fun hm => h (List.mem_cons_of_mem c hm)
      simp [splitAtHash, hc, ih hr]

/-- With pairwise distinct ids, lookup of a member's id finds that member. -/
theorem lookup_eq_of_mem (store : List DbNode) (n : DbNode)
    (hnd : (store.map DbNode.id).Nodup) (hmem : n ∈ store) :
    lookup store n.id = some n := by
  induction store with
  | nil => cases hmem
  | cons h t ih =>
      rw [List.map_cons, List.nodup_cons] at hnd
      rcases List.mem_cons.mp hmem with rfl | hmt
      · unfold lookup
        rw [List.find?_cons_of_pos]
        simp
      · unfold lookup
        by_cases hh : h.id = n.id
        · exact absurd (hh ▸ List.mem_map_of_mem DbNode.id hmt) hnd.1
        · rw [List.find?_cons_of_neg]
          · exact ih hnd.2 hmt
          · simp [hh]

/-- Unpacking parentDepthConsistent pointwise. -/
theorem parentDepthConsistent_spec (store : List DbNode) (d : Nat → Nat)
    (hd : parentDepthConsistent store d = true) :
    ∀ n ∈ store, ∀ p, n.parent_id = some p → d n.id = d p + 1 := by
  intro n hn p hp
  have h := List.all_eq_true.mp hd n hn
  rw [hp] at h
  simpa using h

/-- Unpacking depthBounded pointwise. -/
theorem depthBounded_spec (store : List DbNode) (d : Nat → Nat) (target : Nat)
    (hb : depthBounded store d target = true) :
    ∀ n ∈ store, d n.id ≤ store.length + d target := by
  intro n hn
  have h := List.all_eq_true.mp hb n hn
  simpa using h

/-! ## C7 -/

/-- C7: for every outcome of the underlying request, callExternalApi
either returns the response data with a null error (success) or returns
null data together with an error record carrying a message; no thrown
fault escapes (the handler is total over all outcomes, the axios-error
and generic catch branches included). -/
theorem callExternalApi_shape {T : Type} (o : AxiosOutcome T) :
    (∃ d, o = AxiosOutcome.success d ∧
      callExternalApi o = { data := some d, error := none }) ∨
    ((callExternalApi o).data = none ∧
      ∃ m, (callExternalApi o).error = some { message := m }) := by
  cases o with
  | success d => exact Or.inl ⟨d, rfl, rfl⟩
  | axiosError r m => exact Or.inr ⟨rfl, _, rfl⟩
  | otherError m => exact Or.inr ⟨rfl, _, rfl⟩

/-! ## C9 -/

/-- C9: every input-change event preserves the masking invariant: after
handleChange the displayed value is all asterisks and its length equals
the stored password's length, on the append, delete and
reset-on-next-input paths alike. -/
theorem masking_invariant_preserved (s : EntryState) (e : List Char) (h : Masked s) :
    Masked (handleChange s e) := by
  have hlen : s.displayValue.length = s.password.length := by
    rw [h]
    simp
  unfold Masked handleChange
  by_cases hr : s.shouldResetOnNextInput = true
  · by_cases hlt : e.length < s.displayValue.length
    · simp [hr, hlt]
    · simp [hr, hlt]
  · have hr2 : s.shouldResetOnNextInput = false := by
      cases hsr : s.shouldResetOnNextInput
      · rfl
      · exact absurd hsr hr
    by_cases hgt : e.length > s.displayValue.length
    · simp only [hr2, Bool.false_eq_true, if_false, hgt, if_true]
      congr 1
      simp
      omega
    · by_cases hlt : e.length < s.displayValue.length
      · simp only [hr2, Bool.false_eq_true, if_false, hgt, if_false, hlt, if_true]
        congr 1
        simp
        omega
      · simp only [hr2, Bool.false_eq_true, if_false, hgt, if_false, hlt]
        congr 1
        omega

/-- Witness for C9 at a concrete state: two stored characters displayed
as two asterisks, then an append event of one character. -/
theorem masking_invariant_preserved_witness :
    Masked (handleChange
      { password := ['a', 'b'], displayValue := ['*', '*'],
        shouldResetOnNextInput := false, validationState := none }
      ['*', '*', 'c']) :=
  masking_invariant_preserved _ _ (by decide)

/-! ## C10 -/

/-- C10: for a fragment-free redirect URL from a successful validation,
continueToSite with a non-empty token navigates to exactly that URL with
its fragment set to token= followed by the raw token, and with the token
absent it navigates to the URL unchanged. -/
theorem continueToSite_fragment (r t : List Char) (hr : r ≠ []) (hh : '#' ∉ r)
    (ht : t ≠ []) :
    continueToSite r (some t) = some (r ++ '#' :: (tokenKey ++ t)) ∧
    continueToSite r none = some r := by
  have hsplit := splitAtHash_of_not_mem r hh
  constructor
  · unfold continueToSite
    rw [if_neg hr]
    simp [parseUrl, hsplit, setHash, urlToString, ht]
  · unfold continueToSite
    rw [if_neg hr]
    simp [parseUrl, hsplit, urlToString]

/-- Witness for C10 at a concrete redirect URL and token. -/
theorem continueToSite_fragment_witness :
    continueToSite ['h', 't', 'x'] (some ['J', 'W', 'T']) =
      some (['h', 't', 'x'] ++ '#' :: (tokenKey ++ ['J', 'W', 'T'])) ∧
    continueToSite ['h', 't', 'x'] none = some ['h', 't', 'x'] :=
  continueToSite_fragment ['h', 't', 'x'] ['J', 'W', 'T'] (by decide) (by decide) (by decide)

/-! ## C8 -/

/-- C8: any two rejected validation outcomes — an API error of any
message, a response without data, or a thrown exception — produce the
same user-visible submit result: the identical error rendering of the
entry state, with the same deferred clearing of the input; no rejection
reason is distinguishable from another. -/
theorem rejection_uniformity (s : EntryState) (o1 o2 : ValidationOutcome)
    (h1 : isRejection o1 = true) (h2 : isRejection o2 = true) :
    handleSubmit s o1 = handleSubmit s o2 := by
  have key : ∀ o, isRejection o = true →
      handleSubmit s o = SubmitResult.errorShown (rejectionUiUpdate s) := by
    intro o ho
    cases o with
    | success r t =>
        unfold isRejection at ho
        simp only [decide_eq_true_eq] at ho
        simp [handleSubmit, ho]
    | rejectedApiError m => rfl
    | rejectedNoData => rfl
    | thrown m => rfl
  rw [key o1 h1, key o2 h2]

/-- Witness for C8: an API-level rejection and a missing-data rejection
give the same result at a concrete entry state. -/
theorem rejection_uniformity_witness :
    handleSubmit
      { password := ['a'], displayValue := ['*'],
        shouldResetOnNextInput := false, validationState := none }
      (ValidationOutcome.rejectedApiError "Forbidden") =
    handleSubmit
      { password := ['a'], displayValue := ['*'],
        shouldResetOnNextInput := false, validationState := none }
      ValidationOutcome.rejectedNoData :=
  rejection_uniformity _ _ _ (by decide) (by decide)

/-! ## C3 -/

/-- C3: a credential issued for site A is rejected by verification
against any other expected site id B: whatever the verification time,
the result is invalid, so a token issued for one site never authorizes
access to a different site. -/
theorem verify_rejects_cross_site (key now ttl nodeId A B tnow : Nat) (hne : B ≠ A) :
    verify key tnow (issue key now ttl nodeId A) (some B) = VerifyResult.invalid := by
  unfold verify issue
  by_cases hexp : now + ttl < tnow
  · simp [hexp]
  · have hab : ¬ A = B := fun h => hne h.symm
    simp [hexp, hab]

/-- Witness for C3 at concrete key, times and site ids. -/
theorem verify_rejects_cross_site_witness :
    verify 9 0 (issue 9 0 10 5 2) (some 3) = VerifyResult.invalid :=
  verify_rejects_cross_site 9 0 10 5 2 3 0 (by decide)

/-! ## C5 -/

/-- C5 counterexample: a password node whose expiry has passed (by the
code's own expiry test) is still rendered active by PasswordNode, and
likewise by SiteNode, contradicting the claim that every node kind is
treated as inactive once past its expiry. -/
theorem expiry_rendering_counterexample :
    timeExpired 1 (some 0) = true ∧
    passwordRenderedActive 1 { isActive := true, expiresAt := some 0 } = true ∧
    siteRenderedActive 1 { isActive := true, expiresAt := some 0 } = true := by
  decide

/-- C5 amended: only the invite rendering applies lazy expiry — an
invite past its expiry is rendered inactive regardless of its stored
is_active flag and without any write — while the password and site
renderings are driven by the stored is_active flag alone and ignore the
expiry. -/
theorem lazy_expiry_rendering (now t : Nat) (d : RenderData)
    (he : d.expiresAt = some t) (ht : t < now) :
    inviteEffectiveActive now d = false ∧
    passwordRenderedActive now d = d.isActive ∧
    siteRenderedActive now d = d.isActive := by
  refine ⟨?_, rfl, rfl⟩
  unfold inviteEffectiveActive inviteIsExpired timeExpired
  rw [he]
  simp [ht]

/-- Witness for C5 amended at a concrete expired invite. -/
theorem lazy_expiry_rendering_witness :
    inviteEffectiveActive 5 { isActive := true, expiresAt := some 3 } = false ∧
    passwordRenderedActive 5 { isActive := true, expiresAt := some 3 } = true ∧
    siteRenderedActive 5 { isActive := true, expiresAt := some 3 } = true :=
  lazy_expiry_rendering 5 3 { isActive := true, expiresAt := some 3 } rfl (by decide)

/-! ## C2 -/

/-- One accountant step never changes the ceiling. -/
theorem tryConsume_max_uses (now : Nat) (c : DbNode) :
    (tryConsume now c).2.max_uses = c.max_uses := by
  unfold tryConsume
  split_ifs with h1 h2
  · rfl
  · rfl
  · split
    · rfl
    · split_ifs
      · rfl
      · rfl

/-- One accountant step under a ceiling: a grant strictly required the
counter to be below the ceiling and increments it by one; any other
result leaves the node untouched. -/
theorem tryConsume_uses (now : Nat) (c : DbNode) (k : Nat) (h : c.max_uses = some k) :
    ((tryConsume now c).1 = ConsumeResult.granted →
      c.uses < k ∧ (tryConsume now c).2.uses = c.uses + 1) ∧
    ((tryConsume now c).1 ≠ ConsumeResult.granted → (tryConsume now c).2 = c) := by
  unfold tryConsume
  simp only [h]
  split_ifs with h1 h2 h3
  · exact ⟨fun hg => hg.elim, fun _ => rfl⟩
  · exact ⟨fun hg => hg.elim, fun _ => rfl⟩
  · exact ⟨fun _ => ⟨h3, rfl⟩, fun hg => absurd rfl hg⟩
  · exact ⟨fun hg => hg.elim, fun _ => rfl⟩

/-- Over any schedule of attempt times the counter's increase equals the
granted count, and the final counter never exceeds the larger of its
starting value and the ceiling. -/
theorem runAttempts_bound (ts : List Nat) :
    ∀ (c : DbNode) (k : Nat), c.max_uses = some k →
      c.uses + (runAttempts c ts).2 ≤ max c.uses k := by
  induction ts with
  | nil =>
      intro c k h
      simp [runAttempts]
  | cons now rest ih =>
      intro c k h
      have hmx : (tryConsume now c).2.max_uses = some k := by
        rw [tryConsume_max_uses]
        exact h
      have hstep := tryConsume_uses now c k h
      have htail := ih (tryConsume now c).2 k hmx
      have hrw : (runAttempts c (now :: rest)).2 =
          (if (tryConsume now c).1 = ConsumeResult.granted then 1 else 0) +
            (runAttempts (tryConsume now c).2 rest).2 := rfl
      rw [hrw]
      by_cases hg : (tryConsume now c).1 = ConsumeResult.granted
      · obtain ⟨hlt, hinc⟩ := hstep.1 hg
        rw [if_pos hg]
        rw [hinc] at htail
        omega
      · have heq := hstep.2 hg
        rw [if_neg hg, heq]
        rw [heq] at htail
        omega

/-- C2: for a node with ceiling k, any schedule of validation attempts —
and, the check-and-increment being one atomic step, any concurrent set
of attempts is observationally such a schedule — grants at most k
validations. -/
theorem max_uses_ceiling (c : DbNode) (k : Nat) (ts : List Nat)
    (h : c.max_uses = some k) :
    (runAttempts c ts).2 ≤ k := by
  have hb := runAttempts_bound ts c k h
  rcases Nat.le_total c.uses k with h1 | h1
  · rw [Nat.max_eq_right h1] at hb
    omega
  · rw [Nat.max_eq_left h1] at hb
    omega

/-- Witness for C2: three attempts against a fresh node with ceiling
two grant at most two. -/
theorem max_uses_ceiling_witness :
    (runAttempts uNode [0, 0, 0]).2 ≤ 2 :=
  max_uses_ceiling uNode 2 [0, 0, 0] rfl

/-! ## C4 -/

/-- C4: re-enabling a node touches that node alone — the targeted row
gets is_active set to true with every other field kept, and every other
row of the store (in particular every still-revoked descendant) is
returned exactly as it was, so previously inactive descendants stay
inactive. -/
theorem enable_only_target (store : List DbNode) (nodeId : Nat) (i : Nat) (n : DbNode)
    (h : store[i]? = some n) :
    (n.id = nodeId → (handleEnable store nodeId)[i]? = some { n with is_active := true }) ∧
    (n.id ≠ nodeId → (handleEnable store nodeId)[i]? = some n) := by
  unfold handleEnable updateNodeStore
  rw [List.getElem?_map, h]
  constructor
  · intro hid
    simp [hid, applyPatch]
  · intro hid
    simp [hid]

/-- Witness for C4: enabling the revoked password leaves its revoked
child invite exactly as it was. -/
theorem enable_only_target_witness :
    (handleEnable [eNodeA, eNodeB] 1)[0]? = some { eNodeA with is_active := true } ∧
    (handleEnable [eNodeA, eNodeB] 1)[1]? = some eNodeB :=
  ⟨(enable_only_target [eNodeA, eNodeB] 1 0 eNodeA rfl).1 rfl,
   (enable_only_target [eNodeA, eNodeB] 1 1 eNodeB rfl).2 (by decide)⟩

/-! ## C1 -/

/-- Soundness of the bounded ancestor walk: a successful walk from b up
to a exhibits reachability of b from a along child links. -/
theorem reaches_of_hasAncestor (store : List DbNode) :
    ∀ (fuel b a : Nat), hasAncestor store fuel b a = true → Reaches store a b := by
  intro fuel
  induction fuel with
  | zero =>
      intro b a h
      have hba : b = a := by
        unfold hasAncestor at h
        simpa using h
      subst hba
      exact Reaches.refl b
  | succ f ih =>
      intro b a h
      by_cases hba : b = a
      · subst hba
        exact Reaches.refl b
      · unfold hasAncestor at h
        rw [if_neg hba] at h
        cases hl : lookup store b with
        | none => simp [hl] at h
        | some n =>
            cases hp : n.parent_id with
            | none => simp [hl, hp] at h
            | some p =>
                simp only [hl, hp] at h
                have hmem : n ∈ store := List.mem_of_find?_eq_some hl
                have hid : n.id = b := by
                  have hfs := List.find?_some hl
                  simpa using hfs
                exact Reaches.child a p b n hmem hid hp (ih p a h)

/-- A consistent depth labelling is monotone along reachability. -/
theorem depth_le_of_reaches (store : List DbNode) (d : Nat → Nat)
    (hd : ∀ n ∈ store, ∀ p, n.parent_id = some p → d n.id = d p + 1) :
    ∀ (a b : Nat), Reaches store a b → d a ≤ d b := by
  intro a b h
  induction h with
  | refl => exact Nat.le_refl _
  | child b0 c0 n hmem hid hpar hr ih =>
      have hstep := hd n hmem b0 hpar
      rw [hid] at hstep
      omega

/-- Completeness of the bounded ancestor walk: with pairwise distinct ids
and a consistent depth labelling, reachability is recovered by the walk
whenever the fuel covers the depth difference. -/
theorem hasAncestor_of_reaches (store : List DbNode) (d : Nat → Nat)
    (hnd : (store.map DbNode.id).Nodup)
    (hd : ∀ n ∈ store, ∀ p, n.parent_id = some p → d n.id = d p + 1) :
    ∀ (a b : Nat), Reaches store a b →
      ∀ (fuel : Nat), d b ≤ d a + fuel → hasAncestor store fuel b a = true := by
  intro a b h
  induction h with
  | refl =>
      intro fuel hf
      cases fuel with
      | zero => unfold hasAncestor; simp
      | succ f => unfold hasAncestor; simp
  | child b0 c0 n hmem hid hpar hr ih =>
      intro fuel hf
      by_cases hca : c0 = a
      · subst hca
        cases fuel with
        | zero => unfold hasAncestor; simp
        | succ f => unfold hasAncestor; simp
      · have hstep := hd n hmem b0 hpar
        rw [hid] at hstep
        have hab : d a ≤ d b0 := depth_le_of_reaches store d hd a b0 hr
        cases fuel with
        | zero => omega
        | succ f =>
            unfold hasAncestor
            rw [if_neg hca]
            have hlk : lookup store c0 = some n := by
              rw [← hid]
              exact lookup_eq_of_mem store n hnd hmem
            simp only [hlk, hpar]
            exact ih f (by omega)

/-- C1: under a well-formed store (pairwise distinct ids, a depth
labelling consistent with the parent links and bounded over the store),
the revoke cascade maps every row reachable from the target along child
links — the target itself included — to the same row with is_active set
to false and nothing else changed, and returns every unreachable row
(siblings, ancestors, nodes of other trees) entirely unchanged. -/
theorem revoke_cascade_frame (store : List DbNode) (target : Nat) (d : Nat → Nat)
    (hnd : (store.map DbNode.id).Nodup)
    (hd : parentDepthConsistent store d = true)
    (hb : depthBounded store d target = true)
    (i : Nat) (n : DbNode) (h : store[i]? = some n) :
    (Reaches store target n.id →
      (revoke store target)[i]? = some { n with is_active := false }) ∧
    (¬ Reaches store target n.id → (revoke store target)[i]? = some n) := by
  have hmem : n ∈ store := List.getElem?_mem h
  have hd2 := parentDepthConsistent_spec store d hd
  unfold revoke
  rw [List.getElem?_map, h]
  constructor
  · intro hreach
    have hfuel : d n.id ≤ d target + store.length := by
      have := depthBounded_spec store d target hb n hmem
      omega
    have hha := hasAncestor_of_reaches store d hnd hd2 target n.id hreach store.length hfuel
    simp [hha]
  · intro hnr
    have hha : hasAncestor store store.length n.id target = false := by
      cases hcase : hasAncestor store store.length n.id target
      · rfl
      · exact absurd (reaches_of_hasAncestor store store.length n.id target hcase) hnr
    simp [hha]

/-- Witness for C1 on the concrete store: revoking the password
deactivates its child invite (changing only that flag) and leaves the
sibling password untouched. -/
theorem revoke_cascade_frame_witness :
    (revoke wStore 2)[2]? = some { wInv with is_active := false } ∧
    (revoke wStore 2)[3]? = some wPwd2 := by
  constructor
  · exact (revoke_cascade_frame wStore 2 wDepth (by decide) (by decide) (by decide)
      2 wInv rfl).1
      (Reaches.child 2 2 3 wInv
        (List.mem_cons_of_mem _ (List.mem_cons_of_mem _ (List.mem_cons_self _ _)))
        rfl rfl (Reaches.refl 2))
  · refine (revoke_cascade_frame wStore 2 wDepth (by decide) (by decide) (by decide)
      3 wPwd2 rfl).2 ?_
    intro hreach
    have hha := hasAncestor_of_reaches wStore wDepth (by decide)
      (parentDepthConsistent_spec wStore wDepth (by decide)) 2 4 hreach 4 (by decide)
    exact absurd hha (by decide)

/-! ## C6 -/

/-- A resolvable chain of depth d is resolved within any fuel budget
exceeding d, visiting the accumulator plus exactly d + 1 nodes. -/
theorem resolveAux_chain (store : List DbNode) (now : Nat) :
    ∀ (d : Nat) (n : DbNode), ChainDepth store n d →
      ∀ (fuel : Nat) (acc : List DbNode), d < fuel →
        ∃ r, resolveAux store now fuel n acc = some r ∧
          r.path.length = acc.length + d + 1 := by
  intro d n h
  induction h with
  | root n hp =>
      intro fuel acc hf
      cases fuel with
      | zero => omega
      | succ f =>
          simp only [resolveAux, hp]
          exact ⟨_, rfl, by simp⟩
  | step n pid pn dd hp hl hcd ih =>
      intro fuel acc hf
      cases fuel with
      | zero => omega
      | succ f =>
          simp only [resolveAux, hp, hl]
          obtain ⟨r, hr, hlen⟩ := ih f (acc ++ [n]) (by omega)
          refine ⟨r, hr, ?_⟩
          rw [hlen]
          simp
          omega

/-- A chain of depth d exhausts any fuel budget of at most d, since the
walk reaches the root only after d parent steps. -/
theorem resolveAux_exhausts (store : List DbNode) (now : Nat) :
    ∀ (d : Nat) (n : DbNode), ChainDepth store n d →
      ∀ (fuel : Nat) (acc : List DbNode), fuel ≤ d →
        resolveAux store now fuel n acc = none := by
  intro d n h
  induction h with
  | root n hp =>
      intro fuel acc hf
      have hz : fuel = 0 := Nat.le_zero.mp hf
      subst hz
      rfl
  | step n pid pn dd hp hl hcd ih =>
      intro fuel acc hf
      cases fuel with
      | zero => rfl
      | succ f =>
          simp only [resolveAux, hp, hl]
          exact ih f (acc ++ [n]) (by omega)

/-- Inside a trapped set the resolver walk never reaches a root, so every
fuel budget is exhausted — also in stores that contain rooted trees next
to the cycle. -/
theorem resolveAux_trapped (store : List DbNode) (now : Nat) (C : List DbNode)
    (h : trappedSet store C = true) :
    ∀ (fuel : Nat), ∀ n ∈ C, ∀ (acc : List DbNode),
      resolveAux store now fuel n acc = none := by
  intro fuel
  induction fuel with
  | zero => intro n hn acc; rfl
  | succ f ih =>
      intro n hn acc
      have hall := List.all_eq_true.mp h n hn
      rw [Bool.and_eq_true] at hall
      obtain ⟨hmem, hrest⟩ := hall
      cases hp : n.parent_id with
      | none => simp [hp] at hrest
      | some pid =>
          simp only [hp] at hrest
          cases hl : lookup store pid with
          | none => simp [hl] at hrest
          | some pn =>
              simp only [hl] at hrest
              simp only [resolveAux, hp, hl]
              exact ih pn (of_decide_eq_true hrest) (acc ++ [n])

/-- Soundness of the executable depth measurement with respect to
ChainDepth. -/
theorem chainDepth_of_chainDepthB (store : List DbNode) :
    ∀ (fuel : Nat) (n : DbNode) (d : Nat),
      chainDepthB store fuel n = some d → ChainDepth store n d := by
  intro fuel
  induction fuel with
  | zero =>
      intro n d h
      simp [chainDepthB] at h
  | succ f ih =>
      intro n d h
      unfold chainDepthB at h
      cases hp : n.parent_id with
      | none =>
          simp only [hp, Option.some.injEq] at h
          subst h
          exact ChainDepth.root n hp
      | some pid =>
          simp only [hp] at h
          cases hl : lookup store pid with
          | none => simp [hl] at h
          | some pn =>
              simp only [hl] at h
              cases hB : chainDepthB store f pn with
              | none => simp [hB] at h
              | some dd =>
                  simp only [hB, Option.some.injEq] at h
                  subst h
                  exact ChainDepth.step n pid pn dd hp hl (ih pn dd hB)

/-- C6: a node whose parent chain resolves to a root at depth d below the
configured ceiling is resolved successfully, visiting exactly d + 1
nodes; a chain whose depth reaches the configured ceiling terminates
with the MalformedTree outcome; and a node inside a trapped set — the
nodes of a parent cycle, also when the store holds rooted trees beside
it — likewise terminates with the MalformedTree outcome instead of
looping. -/
theorem ancestry_resolution_outcomes (store : List DbNode) (now : Nat) (n : DbNode)
    (d : Nat) (C : List DbNode) :
    (ChainDepth store n d → d < maxAncestryDepth →
      (resolve store now n).map (fun r => r.path.length) = some (d + 1)) ∧
    (ChainDepth store n d → maxAncestryDepth ≤ d → resolve store now n = none) ∧
    (trappedSet store C = true → n ∈ C → resolve store now n = none) := by
  refine ⟨?_, ?_, ?_⟩
  · intro hcd hlt
    obtain ⟨r, hr, hlen⟩ := resolveAux_chain store now d n hcd maxAncestryDepth [] hlt
    unfold resolve
    rw [hr]
    simp [hlen]
  · intro hcd hge
    exact resolveAux_exhausts store now d n hcd maxAncestryDepth [] hge
  · intro ht hn
    exact resolveAux_trapped store now C ht maxAncestryDepth n hn []

/-- Witness for C6: the invite of the concrete store sits at depth two
and resolves visiting three nodes; the deepest node of the concrete
65-node chain (depth 64, at the ceiling) resolves to the malformed
outcome; and a node of the two-node parent cycle embedded beside a
rooted tree resolves to the malformed outcome. -/
theorem ancestry_resolution_outcomes_witness :
    (resolve wStore 5 wInv).map (fun r => r.path.length) = some 3 ∧
    resolve longStore 5 (chainNode 0) = none ∧
    resolve mixStore 5 cNodeA = none := by
  refine ⟨?_, ?_, ?_⟩
  · exact (ancestry_resolution_outcomes wStore 5 wInv 2 []).1
      (ChainDepth.step wInv 2 wPwd 1 rfl (by decide)
        (ChainDepth.step wPwd 1 wSite 0 rfl (by decide)
          (ChainDepth.root wSite rfl)))
      (by decide)
  · exact (ancestry_resolution_outcomes longStore 5 (chainNode 0) 64 []).2.1
      (chainDepth_of_chainDepthB longStore 70 (chainNode 0) 64 (by decide))
      (by decide)
  · exact (ancestry_resolution_outcomes mixStore 5 cNodeA 0 [cNodeA, cNodeB]).2.2
      (by decide) (List.mem_cons_self _ _)
